import Mathlib

/-!
Verification of the ModelForge data-discovery subsystem
(modelforge/data_discovery: catalog.py, discovery_service.py,
connectors/base.py, connectors/ine.py, connectors/aemet.py,
connectors/eurostat.py) against its natural-language specification.

The Python code is shallowly embedded: the catalog dict becomes an
association list with insertion-order dict semantics, connector and
network effects become explicit outcome values, and the rate-limit
decorator and TTL cache become explicit state transitions over a
discrete clock measured in whole seconds.
-/

namespace ModelForge

/-- Embeds models.DatasetSchema (models.py lines 5-10): schema definition
for a dataset field. -/
structure DatasetSchema where
  name : String
  data_type : String
  description : Option String := none
  is_nullable : Bool := true
deriving Repr, DecidableEq

/-- Embeds models.DatasetMetadata (models.py lines 12-24): metadata for a
single dataset.  The endpoint URL is kept as a string, the pydantic
schema dict as an association list, and the last_updated datetime as a
numeric timestamp. -/
structure DatasetMetadata where
  id : String
  name : String
  source : String
  endpoint : String
  schema : List (String × DatasetSchema)
  update_frequency : String
  last_updated : Nat
  description : Option String := none
  tags : List String := []
  license : Option String := none
  rate_limit : Option Nat := none
deriving Repr, DecidableEq

/-- Equality of fallible results is decidable when it is decidable on
both components; used to evaluate concrete witnesses. -/
instance exceptDecEq {ε α : Type} [DecidableEq ε] [DecidableEq α] :
    DecidableEq (Except ε α)
  | Except.ok a, Except.ok b =>
    if h : a = b then isTrue (by rw [h])
    else isFalse fun he => h (Except.ok.inj he)
  | Except.ok _, Except.error _ => isFalse fun he => Except.noConfusion he
  | Except.error _, Except.ok _ => isFalse fun he => Except.noConfusion he
  | Except.error e, Except.error f =>
    if h : e = f then isTrue (by rw [h])
    else isFalse fun he => h (Except.error.inj he)

/-- The private _datasets dict of DatasetCatalog (catalog.py line 8),
modelled as an association list from dataset id to metadata, in dict
insertion order. -/
abbrev Catalog := List (String × DatasetMetadata)

/-- Python dict assignment d[k] = v: if the key is present, overwrite the
value in place (position preserved); otherwise append the binding at the
end.  This is the semantics of the assignment on catalog.py line 31. -/
def dictInsert : Catalog → String → DatasetMetadata → Catalog
  | [], k, v => [(k, v)]
  | p :: rest, k, v =>
    if p.1 = k then (k, v) :: rest else p :: dictInsert rest k v

/-- Python dict lookup: first binding whose key matches. -/
def catFind : Catalog → String → Option DatasetMetadata
  | [], _ => none
  | p :: rest, k => if p.1 = k then some p.2 else catFind rest k

/-- Embeds DatasetCatalog.add_dataset (catalog.py lines 29-31):
self._datasets[metadata.id] = metadata. -/
def add_dataset (c : Catalog) (d : DatasetMetadata) : Catalog :=
  dictInsert c d.id d

/-- Errors raised by catalog operations; notFound embeds the KeyError
raised on catalog.py line 36. -/
inductive CatalogError where
  | notFound (id : String)
deriving Repr, DecidableEq

/-- Embeds DatasetCatalog.get_dataset (catalog.py lines 33-37): raise
KeyError when the id is absent, else return the stored metadata. -/
def get_dataset (c : Catalog) (k : String) : Except CatalogError DatasetMetadata :=
  match catFind c k with
  | some d => Except.ok d
  | none => Except.error (CatalogError.notFound k)

/-- Embeds DatasetCatalog.list_datasets (catalog.py lines 58-60):
list(self._datasets.values()), in insertion order. -/
def list_datasets (c : Catalog) : List DatasetMetadata :=
  c.map Prod.snd

/-- Embeds DatasetCatalog.remove_dataset (catalog.py lines 62-65): delete
the binding when present, otherwise do nothing. -/
def remove_dataset : Catalog → String → Catalog
  | [], _ => []
  | p :: rest, k =>
    if p.1 = k then remove_dataset rest k else p :: remove_dataset rest k

/-- Python str.startswith on character lists: needle is a prefix of hay. -/
def startsWithList : List Char → List Char → Bool
  | _, [] => true
  | [], _ :: _ => false
  | a :: as, b :: bs => (b = a) && startsWithList as bs

/-- Python substring membership (needle in hay) on character lists. -/
def hasSubList : List Char → List Char → Bool
  | hay, needle =>
    startsWithList hay needle ||
      match hay with
      | [] => false
      | _ :: as => hasSubList as needle

/-- Python substring test (needle in hay) on strings. -/
def strContains (hay needle : String) : Bool :=
  hasSubList hay.data needle.data

/-- Python str.lower, restricted to the character-wise case mapping. -/
def lower (s : String) : String :=
  String.mk (s.data.map Char.toLower)

/-- The match condition of DatasetCatalog.search_datasets (catalog.py
lines 46-48): the lowered query is contained in the lowered name, or the
description is truthy (present and non-empty, Python truthiness of an
optional string) and contains the lowered query when lowered, or some
lowered tag contains the lowered query. -/
def searchMatch (query : String) (d : DatasetMetadata) : Bool :=
  strContains (lower d.name) (lower query)
    || (match d.description with
        | some desc => decide (desc ≠ "") && strContains (lower desc) (lower query)
        | none => false)
    || d.tags.any fun t => strContains (lower t) (lower query)

/-- The tag filter of DatasetCatalog.search_datasets (catalog.py lines
50-52): a matched dataset is kept unless the tags argument is truthy
(present and non-empty) and some requested tag is not a member of the
dataset tags. -/
def tagsFilterOk (tags : Option (List String)) (d : DatasetMetadata) : Bool :=
  match tags with
  | none => true
  | some ts => decide (ts = []) || ts.all fun t => d.tags.contains t

/-- Embeds DatasetCatalog.search_datasets (catalog.py lines 39-56): walk
the stored datasets in order and keep those passing the match condition
and the tag filter. -/
def search_datasets (c : Catalog) (query : String) (tags : Option (List String)) :
    List DatasetMetadata :=
  (list_datasets c).filter fun d => searchMatch query d && tagsFilterOk tags d

/-- Embeds DatasetCatalog.load_from_storage (catalog.py lines 13-20) in
the persistent case: every dataset returned by the store is written into
the dict under its own id, in order. -/
def load_from_storage (c : Catalog) (ds : List DatasetMetadata) : Catalog :=
  ds.foldl add_dataset c

/-- A concrete dataset for witnesses, following the concrete search
scenario of the spec (section 8). -/
def sampleD : DatasetMetadata :=
  { id := "IPC"
    name := "Consumer Price Index"
    source := "ine"
    endpoint := "https://servicios.ine.es/wstempus/js/ES/DATOS_SERIE/IPC"
    schema := []
    update_frequency := "unknown"
    last_updated := 0
    description := some "Spanish consumer price index"
    tags := ["inflation", "prices"]
    license := none
    rate_limit := some 100 }

theorem catFind_dictInsert (c : Catalog) (k k' : String) (v : DatasetMetadata) :
    catFind (dictInsert c k' v) k = if k = k' then some v else catFind c k := by
  induction c with
  | nil =>
    by_cases h : k = k'
    · simp [dictInsert, catFind, h]
    · simp [dictInsert, catFind, h, Ne.symm h]
  | cons p rest ih =>
    simp only [dictInsert]
    by_cases hp : p.1 = k'
    · simp only [hp, if_true, catFind]
      by_cases h : k = k'
      · simp [h]
      · simp [h, Ne.symm h, hp]
    · simp only [hp, if_false, catFind, ih]
      by_cases hk : p.1 = k
      · have h : ¬k = k' := fun e => hp (e ▸ hk)
        simp [hk, h]
      · simp [hk]

theorem catFind_remove (c : Catalog) (k k' : String) :
    catFind (remove_dataset c k') k = if k = k' then none else catFind c k := by
  induction c with
  | nil => simp [remove_dataset, catFind]
  | cons p rest ih =>
    simp only [remove_dataset]
    by_cases hp : p.1 = k'
    · rw [if_pos hp, ih]
      by_cases h : k = k'
      · simp [h]
      · simp [h, catFind, hp, Ne.symm h]
    · rw [if_neg hp]
      simp only [catFind, ih]
      by_cases hk : p.1 = k
      · have h : ¬k = k' := fun e => hp (e ▸ hk)
        simp [hk, h]
      · simp [hk]

theorem remove_of_absent (c : Catalog) (k : String) (h : catFind c k = none) :
    remove_dataset c k = c := by
  induction c with
  | nil => rfl
  | cons p rest ih =>
    by_cases hp : p.1 = k
    · simp [catFind, hp] at h
    · simp only [catFind, hp, if_neg, if_false] at h
      simp [remove_dataset, hp, ih h]

/-- C2: after add_dataset(D), get_dataset(D.id) returns exactly D — the
whole stored record is the new value, so a pre-existing entry under the
same id is fully overwritten, not merged — and every key other than D.id
reads exactly as before. -/
theorem C2_add_get (c : Catalog) (d : DatasetMetadata) :
    get_dataset (add_dataset c d) d.id = Except.ok d ∧
      ∀ k, k ≠ d.id → get_dataset (add_dataset c d) k = get_dataset c k := by
  refine ⟨?_, ?_⟩
  · simp [get_dataset, add_dataset, catFind_dictInsert]
  · intro k hk
    simp [get_dataset, add_dataset, catFind_dictInsert, hk]

theorem C2_add_get_witness :
    get_dataset (add_dataset [] sampleD) sampleD.id = Except.ok sampleD ∧
      get_dataset (add_dataset [] sampleD) ("GDP") = get_dataset [] ("GDP") :=
  ⟨(C2_add_get [] sampleD).1, (C2_add_get [] sampleD).2 ("GDP") (by decide)⟩

/-- C8: removing an absent id is a no-op that raises nothing and leaves
the catalog unchanged, get_dataset on that absent id fails with the
notFound error, and after any removal of an id a subsequent get_dataset
on that id fails with notFound. -/
theorem C8_remove_absent (c : Catalog) (k : String) :
    (catFind c k = none →
        remove_dataset c k = c ∧
          get_dataset c k = Except.error (CatalogError.notFound k)) ∧
      get_dataset (remove_dataset c k) k =
        Except.error (CatalogError.notFound k) := by
  refine ⟨fun h => ⟨remove_of_absent c k h, ?_⟩, ?_⟩
  · simp [get_dataset, h]
  · simp [get_dataset, catFind_remove]

theorem startsWithList_nil (hay : List Char) : startsWithList hay [] = true := by
  cases hay <;> rfl

theorem hasSubList_nil (hay : List Char) : hasSubList hay [] = true := by
  cases hay <;> simp [hasSubList, startsWithList_nil]

theorem hasSubList_empty_hay (nd : List Char) (h : hasSubList [] nd = true) :
    nd = [] := by
  cases nd with
  | nil => rfl
  | cons b bs => simp [hasSubList, startsWithList] at h

theorem data_empty : ("" : String).data = [] := rfl

theorem lower_empty : lower ("") = ("") := by decide

theorem searchMatch_iff (query : String) (d : DatasetMetadata) :
    searchMatch query d = true ↔
      strContains (lower d.name) (lower query) = true ∨
        (∃ desc, d.description = some desc ∧
          strContains (lower desc) (lower query) = true) ∨
        ∃ t ∈ d.tags, strContains (lower t) (lower query) = true := by
  unfold searchMatch
  cases hd : d.description with
  | none =>
    simp only [Bool.or_eq_true, List.any_eq_true]
    constructor
    · rintro ((h | h) | h)
      · exact Or.inl h
      · cases h
      · exact Or.inr (Or.inr (by simpa using h))
    · rintro (h | ⟨desc, hdesc, h⟩ | ⟨t, ht, h⟩)
      · exact Or.inl (Or.inl h)
      · cases hdesc
      · exact Or.inr ⟨t, ht, h⟩
  | some desc =>
    simp only [Bool.or_eq_true, Bool.and_eq_true, decide_eq_true_eq,
      List.any_eq_true]
    constructor
    · rintro ((h | ⟨hne, h⟩) | h)
      · exact Or.inl h
      · exact Or.inr (Or.inl ⟨desc, rfl, h⟩)
      · exact Or.inr (Or.inr (by simpa using h))
    · rintro (h | ⟨desc2, hdesc, h⟩ | ⟨t, ht, h⟩)
      · exact Or.inl (Or.inl h)
      · obtain rfl := Option.some.inj hdesc
        by_cases hne : desc = ""
        · subst hne
          have hqe : (lower query).data = [] := by
            refine hasSubList_empty_hay _ ?_
            simpa [strContains, lower_empty, data_empty] using h
          refine Or.inl (Or.inl ?_)
          unfold strContains
          rw [hqe]
          exact hasSubList_nil _
        · exact Or.inl (Or.inr ⟨hne, h⟩)
      · exact Or.inr ⟨t, ht, h⟩

theorem tagsFilterOk_iff (tags : Option (List String)) (d : DatasetMetadata) :
    tagsFilterOk tags d = true ↔
      ∀ ts, tags = some ts → ts ≠ [] → ∀ t ∈ ts, t ∈ d.tags := by
  cases tags with
  | none => simp [tagsFilterOk]
  | some ts =>
    simp only [tagsFilterOk, Bool.or_eq_true, decide_eq_true_eq,
      List.all_eq_true]
    constructor
    · rintro (h | h) ts' hts hne t htm
      · injection hts with he
        subst he
        exact absurd h hne
      · injection hts with he
        subst he
        simpa [List.contains] using h t htm
    · intro h
      by_cases hne : ts = []
      · exact Or.inl hne
      · refine Or.inr fun t htm => ?_
        simpa [List.contains] using h ts rfl hne t htm

/-- C1: search_datasets returns exactly those stored entries in which the
query appears as a case-insensitive substring of the name, of the
description when present, or of some tag; and when a non-empty tags list
is supplied, every returned entry contains all of the listed tags.  The
function is total, so an empty result list is an ordinary value, never an
error. -/
theorem C1_search_characterization (c : Catalog) (query : String)
    (tags : Option (List String)) (d : DatasetMetadata) :
    d ∈ search_datasets c query tags ↔
      d ∈ list_datasets c ∧
        (strContains (lower d.name) (lower query) = true ∨
          (∃ desc, d.description = some desc ∧
            strContains (lower desc) (lower query) = true) ∨
          ∃ t ∈ d.tags, strContains (lower t) (lower query) = true) ∧
        ∀ ts, tags = some ts → ts ≠ [] → ∀ t ∈ ts, t ∈ d.tags := by
  unfold search_datasets
  rw [List.mem_filter, Bool.and_eq_true, searchMatch_iff, tagsFilterOk_iff]

theorem C8_remove_absent_witness :
    (remove_dataset (add_dataset [] sampleD) ("GDP") = add_dataset [] sampleD ∧
        get_dataset (add_dataset [] sampleD) ("GDP") =
          Except.error (CatalogError.notFound ("GDP"))) ∧
      get_dataset (remove_dataset (add_dataset [] sampleD) ("GDP")) ("GDP") =
        Except.error (CatalogError.notFound ("GDP")) :=
  ⟨(C8_remove_absent (add_dataset [] sampleD) ("GDP")).1 (by decide),
    (C8_remove_absent (add_dataset [] sampleD) ("GDP")).2⟩

/-- States of the catalog dict that are reachable through the mutating
operations add_dataset, remove_dataset and load_from_storage, starting
from the empty dict created in DatasetCatalog.init (catalog.py line 8). -/
inductive Reachable : Catalog → Prop where
  | empty : Reachable []
  | add {c : Catalog} (d : DatasetMetadata) : Reachable c →
      Reachable (add_dataset c d)
  | remove {c : Catalog} (k : String) : Reachable c →
      Reachable (remove_dataset c k)
  | load {c : Catalog} (ds : List DatasetMetadata) : Reachable c →
      Reachable (load_from_storage c ds)

/-- Every stored binding keys its metadata record by the id field of the
record. -/
def KeyedById (c : Catalog) : Prop := ∀ p ∈ c, p.2.id = p.1

/-- The dict keys are pairwise distinct. -/
def NodupKeys (c : Catalog) : Prop := (c.map Prod.fst).Nodup

theorem keyedById_dictInsert : ∀ (c : Catalog) (k : String) (v : DatasetMetadata),
    KeyedById c → v.id = k → KeyedById (dictInsert c k v)
  | [], k, v, _, hv => by
    intro p hp
    simp only [dictInsert, List.mem_singleton] at hp
    subst hp
    exact hv
  | q :: rest, k, v, h, hv => by
    intro p hp
    simp only [dictInsert] at hp
    by_cases hq : q.1 = k
    · rw [if_pos hq] at hp
      rcases List.mem_cons.mp hp with h1 | h2
      · subst h1; exact hv
      · exact h p (List.mem_cons_of_mem _ h2)
    · rw [if_neg hq] at hp
      rcases List.mem_cons.mp hp with h1 | h2
      · subst h1
        exact h p (List.mem_cons_self _ _)
      · exact keyedById_dictInsert rest k v
          (fun r hr => h r (List.mem_cons_of_mem _ hr)) hv p h2

theorem keys_dictInsert (c : Catalog) (k : String) (v : DatasetMetadata) :
    (dictInsert c k v).map Prod.fst =
      if k ∈ c.map Prod.fst then c.map Prod.fst
      else c.map Prod.fst ++ [k] := by
  induction c with
  | nil => simp [dictInsert]
  | cons q rest ih =>
    simp only [dictInsert]
    by_cases hq : q.1 = k
    · subst hq
      simp
    · rw [if_neg hq]
      simp only [List.map_cons, ih]
      by_cases hk : k ∈ rest.map Prod.fst
      · simp [hk]
      · simp [hk, Ne.symm hq]

theorem nodupKeys_dictInsert {c : Catalog} (k : String) (v : DatasetMetadata)
    (h : NodupKeys c) : NodupKeys (dictInsert c k v) := by
  unfold NodupKeys at h ⊢
  rw [keys_dictInsert]
  by_cases hk : k ∈ c.map Prod.fst
  · rwa [if_pos hk]
  · rw [if_neg hk]
    exact h.append (List.nodup_singleton k)
      (by simpa [List.disjoint_singleton] using hk)

theorem remove_sublist (c : Catalog) (k : String) :
    (remove_dataset c k).Sublist c := by
  induction c with
  | nil => simp [remove_dataset]
  | cons p rest ih =>
    simp only [remove_dataset]
    by_cases hp : p.1 = k
    · rw [if_pos hp]
      exact ih.cons _
    · rw [if_neg hp]
      exact ih.cons₂ _

theorem keyedById_foldl (ds : List DatasetMetadata) : ∀ (c : Catalog),
    KeyedById c → KeyedById (ds.foldl add_dataset c) := by
  induction ds with
  | nil => exact fun c h => h
  | cons d rest ih =>
    intro c h
    rw [List.foldl_cons]
    exact ih _ (keyedById_dictInsert c d.id d h rfl)

theorem nodupKeys_foldl (ds : List DatasetMetadata) : ∀ (c : Catalog),
    NodupKeys c → NodupKeys (ds.foldl add_dataset c) := by
  induction ds with
  | nil => exact fun c h => h
  | cons d rest ih =>
    intro c h
    rw [List.foldl_cons]
    exact ih _ (nodupKeys_dictInsert _ _ h)

theorem reachable_invariant {c : Catalog} (h : Reachable c) :
    KeyedById c ∧ NodupKeys c := by
  induction h with
  | empty => exact ⟨fun p hp => absurd hp (List.not_mem_nil p), List.nodup_nil⟩
  | add d _ ih =>
    exact ⟨keyedById_dictInsert _ _ _ ih.1 rfl, nodupKeys_dictInsert _ _ ih.2⟩
  | remove k _ ih =>
    refine ⟨fun p hp => ih.1 p ((remove_sublist _ k).subset hp), ?_⟩
    exact ih.2.sublist ((remove_sublist _ k).map Prod.fst)
  | load ds _ ih =>
    exact ⟨keyedById_foldl ds _ ih.1, nodupKeys_foldl ds _ ih.2⟩

theorem catFind_some_mem : ∀ {c : Catalog} {k : String} {v : DatasetMetadata},
    catFind c k = some v → ∃ p ∈ c, p.1 = k ∧ p.2 = v := by
  intro c
  induction c with
  | nil => intro k v h; cases h
  | cons q rest ih =>
    intro k v h
    simp only [catFind] at h
    by_cases hq : q.1 = k
    · rw [if_pos hq] at h
      exact ⟨q, List.mem_cons_self _ _, hq, Option.some.inj h⟩
    · rw [if_neg hq] at h
      obtain ⟨p, hp, h1, h2⟩ := ih h
      exact ⟨p, List.mem_cons_of_mem _ hp, h1, h2⟩

/-- C10: in every catalog state reachable through add_dataset,
remove_dataset and load_from_storage, each stored record is keyed by its
own id: whenever get_dataset succeeds the returned id equals the lookup
key, and the listed datasets carry pairwise distinct ids, so list_datasets
holds exactly one entry per distinct id. -/
theorem C10_key_consistency (c : Catalog) (h : Reachable c) :
    (∀ k d, get_dataset c k = Except.ok d → d.id = k) ∧
      ((list_datasets c).map (fun d => d.id)).Nodup := by
  obtain ⟨h1, h2⟩ := reachable_invariant h
  constructor
  · intro k d hk
    unfold get_dataset at hk
    cases hfind : catFind c k with
    | none => rw [hfind] at hk; cases hk
    | some v =>
      rw [hfind] at hk
      obtain rfl := Except.ok.inj hk
      obtain ⟨p, hp, hpk, hpv⟩ := catFind_some_mem hfind
      rw [← hpv, h1 p hp, hpk]
  · have he : (list_datasets c).map (fun d => d.id) = c.map Prod.fst := by
      unfold list_datasets
      rw [List.map_map]
      exact List.map_congr_left fun p hp => h1 p hp
    rw [he]
    exact h2

theorem C10_key_consistency_witness :
    ((list_datasets (add_dataset [] sampleD)).map (fun d => d.id)).Nodup ∧
      sampleD.id = "IPC" :=
  ⟨(C10_key_consistency (add_dataset [] sampleD)
      (Reachable.add sampleD Reachable.empty)).2,
    (C10_key_consistency (add_dataset [] sampleD)
      (Reachable.add sampleD Reachable.empty)).1 ("IPC") sampleD (by decide)⟩

/-- Outcome of one connector invocation of convert_to_standard_metadata
during a refresh: either the standardized dataset list, or a raised
exception whose message is irrelevant here. -/
abbrev ConnResult := Except Unit (List DatasetMetadata)

/-- Embeds DataDiscoveryService.refresh_connector (discovery_service.py
lines 104-124): on success the converted datasets are returned; on any
exception the error is logged and the initial empty list is returned. -/
def refresh_connector : ConnResult → List DatasetMetadata
  | Except.ok ds => ds
  | Except.error _ => []

/-- The catalog produced by the update loop of refresh_catalog
(discovery_service.py lines 90-95): every dataset of every gathered
per-connector result, in gather order, is upserted via add_dataset. -/
def refreshed (c : Catalog) (rs : List ConnResult) : Catalog :=
  ((rs.map refresh_connector).flatten).foldl add_dataset c

/-- Embeds DataDiscoveryService.refresh_catalog (discovery_service.py
lines 74-102) without persistence: raise RuntimeError when no connector
is active, else gather the per-connector refresh results in order and
upsert every returned dataset into the catalog. -/
def refresh_catalog (c : Catalog) (rs : List ConnResult) : Except Unit Catalog :=
  if rs.isEmpty then Except.error ()
  else Except.ok (refreshed c rs)

theorem catFind_foldl_isSome (ds : List DatasetMetadata) : ∀ (c : Catalog) (k : String),
    (catFind c k).isSome = true → (catFind (ds.foldl add_dataset c) k).isSome = true := by
  induction ds with
  | nil => exact fun c k h => h
  | cons d rest ih =>
    intro c k h
    rw [List.foldl_cons]
    apply ih
    rw [add_dataset, catFind_dictInsert]
    by_cases hk : k = d.id
    · simp [hk]
    · rwa [if_neg hk]

theorem catFind_foldl_mem (ds : List DatasetMetadata) : ∀ (c : Catalog)
    (d : DatasetMetadata), d ∈ ds →
    (catFind (ds.foldl add_dataset c) d.id).isSome = true := by
  induction ds with
  | nil => intro c d h; cases h
  | cons e rest ih =>
    intro c d h
    rw [List.foldl_cons]
    rcases List.mem_cons.mp h with h1 | h2
    · subst h1
      apply catFind_foldl_isSome
      simp [add_dataset, catFind_dictInsert]
    · exact ih _ d h2

/-- C3: with at least one active connector, refresh_catalog completes
without raising even when some connector conversions raise: a failing
connector contributes exactly the empty list, and every dataset returned
by a non-failing connector is still upserted, so its id is present in the
resulting catalog. -/
theorem C3_refresh_isolation (c : Catalog) (rs : List ConnResult) (hne : rs ≠ []) :
    (∀ r ∈ rs, r.isOk = false → refresh_connector r = []) ∧
      refresh_catalog c rs = Except.ok (refreshed c rs) ∧
      ∀ ds, Except.ok ds ∈ rs → ∀ d ∈ ds,
        (catFind (refreshed c rs) d.id).isSome = true := by
  refine ⟨?_, ?_, ?_⟩
  · intro r _ hr
    cases r with
    | ok ds => simp [Except.isOk, Except.toBool] at hr
    | error e => rfl
  · unfold refresh_catalog
    rw [if_neg (by simpa [List.isEmpty_iff] using hne)]
  · intro ds hds d hd
    apply catFind_foldl_mem
    rw [List.mem_flatten]
    refine ⟨ds, ?_, hd⟩
    rw [List.mem_map]
    exact ⟨Except.ok ds, hds, rfl⟩

theorem C3_refresh_isolation_witness :
    refresh_connector (Except.error ()) = [] ∧
      refresh_catalog [] [Except.ok [sampleD], Except.error ()] =
        Except.ok (refreshed [] [Except.ok [sampleD], Except.error ()]) ∧
      (catFind (refreshed [] [Except.ok [sampleD], Except.error ()])
          sampleD.id).isSome = true := by
  obtain ⟨h1, h2, h3⟩ := C3_refresh_isolation []
    [Except.ok [sampleD], Except.error ()] (List.cons_ne_nil _ _)
  refine ⟨h1 _ ?_ rfl, h2, h3 [sampleD] ?_ sampleD ?_⟩
  · exact List.mem_cons_of_mem _ (List.mem_cons_self _ _)
  · exact List.mem_cons_self _ _
  · exact List.mem_cons_self _ _

/-- The stream element that wins for a given id after upserting a stream
of datasets in order: the last element of the stream carrying that id. -/
def lastWith (k : String) : List DatasetMetadata → Option DatasetMetadata
  | [] => none
  | d :: ds =>
    match lastWith k ds with
    | some v => some v
    | none => if d.id = k then some d else none

theorem catFind_foldl (ds : List DatasetMetadata) : ∀ (c : Catalog) (k : String),
    catFind (ds.foldl add_dataset c) k =
      match lastWith k ds with
      | some v => some v
      | none => catFind c k := by
  induction ds with
  | nil => intro c k; rfl
  | cons d rest ih =>
    intro c k
    rw [List.foldl_cons, ih]
    cases hl : lastWith k rest with
    | some v => simp [lastWith, hl]
    | none =>
      rw [add_dataset, catFind_dictInsert]
      simp only [lastWith, hl]
      by_cases hk : k = d.id
      · rw [if_pos hk, if_pos hk.symm]
      · rw [if_neg hk, if_neg (Ne.symm hk)]

/-- C7: refreshing twice with identical connector outputs yields the same
final catalog as refreshing once: the second refresh succeeds, lookups on
every id agree between the two catalogs, and key uniqueness is preserved,
so no entry is duplicated and none is lost. -/
theorem C7_refresh_idempotent (c : Catalog) (rs : List ConnResult)
    (hne : rs ≠ []) (hnd : NodupKeys c) :
    refresh_catalog c rs = Except.ok (refreshed c rs) ∧
      refresh_catalog (refreshed c rs) rs =
        Except.ok (refreshed (refreshed c rs) rs) ∧
      (∀ k, catFind (refreshed (refreshed c rs) rs) k =
        catFind (refreshed c rs) k) ∧
      NodupKeys (refreshed c rs) ∧
      NodupKeys (refreshed (refreshed c rs) rs) := by
  have hok : ∀ c' : Catalog, refresh_catalog c' rs = Except.ok (refreshed c' rs) := by
    intro c'
    unfold refresh_catalog
    rw [if_neg (by simpa [List.isEmpty_iff] using hne)]
  refine ⟨hok c, hok _, ?_, ?_, ?_⟩
  · intro k
    unfold refreshed
    rw [catFind_foldl]
    cases hl : lastWith k ((rs.map refresh_connector).flatten) with
    | some v => rw [catFind_foldl, hl]
    | none => rfl
  · exact nodupKeys_foldl _ _ hnd
  · exact nodupKeys_foldl _ _ (nodupKeys_foldl _ _ hnd)

theorem C7_refresh_idempotent_witness :
    refresh_catalog [] [Except.ok [sampleD]] =
        Except.ok (refreshed [] [Except.ok [sampleD]]) ∧
      refresh_catalog (refreshed [] [Except.ok [sampleD]]) [Except.ok [sampleD]] =
        Except.ok (refreshed (refreshed [] [Except.ok [sampleD]]) [Except.ok [sampleD]]) ∧
      catFind (refreshed (refreshed [] [Except.ok [sampleD]]) [Except.ok [sampleD]])
          ("IPC") =
        catFind (refreshed [] [Except.ok [sampleD]]) ("IPC") ∧
      NodupKeys (refreshed [] [Except.ok [sampleD]]) := by
  obtain ⟨h1, h2, h3, h4, h5⟩ := C7_refresh_idempotent []
    [Except.ok [sampleD]] (List.cons_ne_nil _ _) List.nodup_nil
  exact ⟨h1, h2, h3 ("IPC"), h4⟩

/-- Outcome of normalizing one entry of a source dataset listing: a
canonical record, or a raised exception (missing field, bad schema fetch,
validation error), the message being irrelevant. -/
abbrev EntryOutcome := Except Unit DatasetMetadata

/-- Embeds the conversion loop of
INEConnector.convert_to_standard_metadata (ine.py lines 50-83): each
listing entry is processed inside its own try block, so a failing entry
is logged and skipped and the loop continues with the remaining
entries, appending every success in order. -/
def ine_convert : List EntryOutcome → List DatasetMetadata
  | [] => []
  | Except.ok d :: rest => d :: ine_convert rest
  | Except.error _ :: rest => ine_convert rest

/-- Embeds the conversion loop of
AEMETConnector.convert_to_standard_metadata (aemet.py lines 130-170, the
loop on lines 136-164; EurostatConnector.convert_to_standard_metadata on
eurostat.py lines 136-176 has the same shape): the only try block wraps
the whole loop, so the first failing entry aborts the loop and the
datasets accumulated before it are returned. -/
def aemet_convert : List EntryOutcome → List DatasetMetadata
  | [] => []
  | Except.ok d :: rest => d :: aemet_convert rest
  | Except.error _ :: _ => []

/-- C6 fails as stated: in the AEMET conversion a failing entry is not
merely skipped.  Here the second listing entry normalizes successfully,
yet the returned list is empty because the first entry failed. -/
theorem C6_cex :
    (Except.ok sampleD) ∈
        ([Except.error (), Except.ok sampleD] : List EntryOutcome) ∧
      aemet_convert [Except.error (), Except.ok sampleD] = [] := by
  exact ⟨List.mem_cons_of_mem _ (List.mem_cons_self _ _), rfl⟩

theorem ine_convert_mem : ∀ (outs : List EntryOutcome) (d : DatasetMetadata),
    Except.ok d ∈ outs → d ∈ ine_convert outs
  | [], d, h => by cases h
  | Except.ok e :: rest, d, h => by
    rcases List.mem_cons.mp h with h1 | h2
    · obtain rfl := Except.ok.inj h1
      exact List.mem_cons_self _ _
    · exact List.mem_cons_of_mem _ (ine_convert_mem rest d h2)
  | Except.error e :: rest, d, h => by
    rcases List.mem_cons.mp h with h1 | h2
    · cases h1
    · exact ine_convert_mem rest d h2

theorem aemet_convert_eq : ∀ outs : List EntryOutcome,
    aemet_convert outs = ine_convert (outs.takeWhile fun o => o.isOk)
  | [] => rfl
  | Except.ok d :: rest => by
    show d :: aemet_convert rest = _
    rw [aemet_convert_eq rest]
    rfl
  | Except.error e :: _ => rfl

/-- C6 amended: the INE conversion skips a failing entry and keeps every
successfully normalized entry of the listing, while the AEMET and
Eurostat conversions catch failures only around the whole loop, returning
exactly the successes that precede the first failing entry. -/
theorem C6_entry_isolation (outs : List EntryOutcome) :
    (∀ d, Except.ok d ∈ outs → d ∈ ine_convert outs) ∧
      aemet_convert outs = ine_convert (outs.takeWhile fun o => o.isOk) :=
  ⟨fun d hd => ine_convert_mem outs d hd, aemet_convert_eq outs⟩

theorem C6_entry_isolation_witness :
    sampleD ∈ ine_convert [Except.error (), Except.ok sampleD] ∧
      aemet_convert [Except.error (), Except.ok sampleD] =
        ine_convert
          (([Except.error (), Except.ok sampleD] :
            List EntryOutcome).takeWhile fun o => o.isOk) :=
  ⟨(C6_entry_isolation [Except.error (), Except.ok sampleD]).1 sampleD
      (List.mem_cons_of_mem _ (List.mem_cons_self _ _)),
    (C6_entry_isolation [Except.error (), Except.ok sampleD]).2⟩

/-- Outcome of constructing and opening one connector inside the loop of
DataDiscoveryService.__aenter__ (discovery_service.py lines 51-54),
paired with its registry name. -/
abbrev OpenOutcome := String × Except Unit Unit

/-- Embeds the loop of DataDiscoveryService.__aenter__
(discovery_service.py lines 46-61): connectors are opened one after the
other with no exception handling, so an opening failure propagates,
leaving the earlier connectors registered in active_connectors and the
later ones untouched.  Returns the registered names and the overall
outcome of the transition. -/
def aenter_loop : List OpenOutcome → List String × Except Unit Unit
  | [] => ([], Except.ok ())
  | (n, Except.ok _) :: rest =>
    ((aenter_loop rest).1.cons n, (aenter_loop rest).2)
  | (_, Except.error e) :: _ => ([], Except.error e)

/-- C9 fails as stated: when opening the second of three configured
connectors raises, the transition itself raises (the failure is fatal)
and the third connector is never opened, although opening it would have
succeeded. -/
theorem C9_cex :
    aenter_loop
        [("ine", Except.ok ()), ("aemet", Except.error ()),
          ("eurostat", Except.ok ())] =
      (["ine"], Except.error ()) ∧
      "eurostat" ∉
        (aenter_loop
          [("ine", Except.ok ()), ("aemet", Except.error ()),
            ("eurostat", Except.ok ())]).1 := by
  exact ⟨rfl, by decide⟩

/-- C9 amended: during the Inactive-to-Active transition, a failure while
opening one connector propagates out of the transition and prevents every
later-listed connector from being opened; the connectors opened before
the failure remain registered. -/
theorem C9_open_not_isolated (pre : List OpenOutcome) (n : String)
    (post : List OpenOutcome)
    (hpre : ∀ p ∈ pre, p.2 = Except.ok ()) :
    aenter_loop (pre ++ (n, Except.error ()) :: post) =
      (pre.map Prod.fst, Except.error ()) := by
  induction pre with
  | nil => rfl
  | cons p rest ih =>
    obtain ⟨pn, pr⟩ := p
    have hp : pr = Except.ok () := hpre (pn, pr) (List.mem_cons_self _ _)
    subst hp
    have := ih fun r hr => hpre r (List.mem_cons_of_mem _ hr)
    simp only [List.cons_append, aenter_loop, List.append_eq, this,
      List.map_cons]

theorem C9_open_not_isolated_witness :
    aenter_loop
        [("ine", Except.ok ()), ("aemet", Except.error ()),
          ("eurostat", Except.ok ())] =
      ((["ine", "aemet", "eurostat"].take 1 : List String), Except.error ()) := by
  have h := C9_open_not_isolated [("ine", Except.ok ())] ("aemet")
    [("eurostat", Except.ok ())] (by decide)
  simpa using h

/-- A parsed JSON response body, at the granularity _make_request needs:
response.json() yields a mapping, a sequence, or some other value, and
the code only inspects which of the three it got. -/
inductive Payload where
  | dict (entries : List (String × String))
  | arr (items : List String)
  | scalar (s : String)
deriving Repr, DecidableEq

/-- The isinstance check of base.py line 62: the payload is a mapping or
a sequence. -/
def isDictOrList : Payload → Bool
  | Payload.dict _ => true
  | Payload.arr _ => true
  | Payload.scalar _ => false

/-- Environment model of one HTTP GET: the transport fails (ClientError,
or a non-2xx status surfaced by raise_for_status), the body fails to
parse as JSON, or a payload is delivered. -/
inductive NetOutcome where
  | transportErr
  | parseErr
  | payload (p : Payload)
deriving Repr, DecidableEq

/-- State of the rate-limit decorator (ratelimit.limits with calls=1 and
period=1, base.py line 33): the start instant of the current fixed
window and the number of calls counted in it.  The clock is modelled in
whole seconds. -/
structure LimiterState where
  lastReset : Nat
  numCalls : Nat
deriving Repr, DecidableEq

/-- One passage through sleep_and_retry around limits(calls=1, period=1)
(base.py lines 32-33): when the one-second window has elapsed the window
resets and the call is admitted at once; when no call was counted yet the
call is admitted at once inside the window; otherwise the limiter raises,
sleep_and_retry sleeps the remaining time, and the retried call is
admitted when the window resets.  Returns the new limiter state and the
instant at which the wrapped body runs. -/
def rateGate (st : LimiterState) (now : Nat) : LimiterState × Nat :=
  if st.lastReset + 1 ≤ now then (⟨now, 1⟩, now)
  else if st.numCalls = 0 then (⟨st.lastReset, 1⟩, now)
  else (⟨st.lastReset + 1, 1⟩, st.lastReset + 1)

/-- The TTL cache of one connector (cachetools.TTLCache with ttl=3600,
base.py line 18): bindings from cache key to payload and insertion
instant.  An entry is live while it is less than 3600 seconds old; the
maxsize=100 eviction bound is not modelled, as no claim depends on
eviction. -/
abbrev Cache := List (String × Payload × Nat)

/-- The cache key of base.py line 41: the endpoint joined with the
rendering of the params mapping (params travel here already rendered to
their str form). -/
def cacheKey (endpoint params : String) : String :=
  endpoint ++ ":" ++ params

/-- TTLCache lookup: the binding for the key, provided it has not expired
at the current instant. -/
def cacheLookup : Cache → String → Nat → Option Payload
  | [], _, _ => none
  | (k, p, t) :: rest, key, now =>
    if k = key ∧ now < t + 3600 then some p else cacheLookup rest key now

/-- TTLCache store: overwrite the binding in place, or append it. -/
def cacheInsert : Cache → String → Payload → Nat → Cache
  | [], key, p, t => [(key, p, t)]
  | e :: rest, key, p, t =>
    if e.1 = key then (key, p, t) :: rest else e :: cacheInsert rest key p t

/-- The connector state _make_request operates on: the aiohttp session
flag, the TTL cache, and the limiter of the decorator. -/
structure FetchState where
  session : Bool
  cache : Cache
  limiter : LimiterState
deriving Repr, DecidableEq

/-- Result of one _make_request call: the returned value or the raised
RuntimeError, the successor state, whether the network was hit, and the
instant the request body ran at (after any rate-limit sleep). -/
structure ReqOutcome where
  result : Except Unit Payload
  state : FetchState
  networkCalled : Bool
  time : Nat
deriving Repr, DecidableEq

/-- The body of BaseConnector._make_request (base.py lines 34-71), run
at instant t: a missing session raises RuntimeError; a live cache entry
is returned without touching the network; otherwise the GET runs, where
transport errors and JSON parse failures degrade to an empty dict that is
not cached, a payload that is neither mapping nor sequence degrades to an
empty dict that is not cached, and a valid payload is cached and
returned.  Yields the result, the cache, and whether the network was
hit. -/
def requestBody (session : Bool) (cache : Cache) (key : String) (t : Nat)
    (net : NetOutcome) : Except Unit Payload × Cache × Bool :=
  if session = false then (Except.error (), cache, false)
  else
    match cacheLookup cache key t with
    | some p => (Except.ok p, cache, false)
    | none =>
      match net with
      | NetOutcome.transportErr => (Except.ok (Payload.dict []), cache, true)
      | NetOutcome.parseErr => (Except.ok (Payload.dict []), cache, true)
      | NetOutcome.payload p =>
        if isDictOrList p then (Except.ok p, cacheInsert cache key p t, true)
        else (Except.ok (Payload.dict []), cache, true)

/-- Embeds BaseConnector._make_request (base.py lines 32-71) together
with its decorators: the sleep_and_retry and limits pair gates every call
first, because the decorators wrap the whole function, cache check
included; only then does the body run, at the instant the gate admits. -/
def make_request (st : FetchState) (now : Nat) (endpoint params : String)
    (net : NetOutcome) : ReqOutcome :=
  let gate := rateGate st.limiter now
  let body := requestBody st.session st.cache (cacheKey endpoint params) gate.2 net
  ⟨body.1, ⟨st.session, body.2.1, gate.1⟩, body.2.2, gate.2⟩

/-- The per-minute limit AEMETConnector passes to BaseConnector.__init__
and stores in self.rate_limit (aemet.py line 13).  The decorator on
base.py line 33 never reads this value. -/
def aemet_rate_limit : Nat := 30

/-- A connector state holding a live cache entry for the key ep:p, with
the limiter in its initial state. -/
def c4state : FetchState :=
  ⟨true, [(cacheKey ("ep") ("p"), Payload.dict [("a", "b")], 0)], ⟨0, 0⟩⟩

/-- C4 fails as stated: on a live cache entry the cached payload is
returned and the network is not touched, but the rate limiter state does
change, because the limits decorator wraps the whole function and counts
the call before the cache is consulted. -/
theorem C4_cex :
    (make_request c4state 0 ("ep") ("p") NetOutcome.transportErr).result =
        Except.ok (Payload.dict [("a", "b")]) ∧
      (make_request c4state 0 ("ep") ("p")
          NetOutcome.transportErr).networkCalled = false ∧
      (make_request c4state 0 ("ep") ("p")
          NetOutcome.transportErr).state.limiter ≠ c4state.limiter := by
  refine ⟨by decide, by decide, by decide⟩

/-- C4 amended: a fetch whose cache key holds an entry that is live when
the cache is consulted (that is, after the rate gate admits the call)
returns the cached payload without a network call and without modifying
the cache; the call does pass through the rate gate first, so the limiter
advances exactly as the gate dictates instead of staying unchanged. -/
theorem C4_cache_hit (st : FetchState) (now : Nat) (ep ps : String)
    (net : NetOutcome) (p : Payload) (hs : st.session = true)
    (hc : cacheLookup st.cache (cacheKey ep ps)
        (rateGate st.limiter now).2 = some p) :
    (make_request st now ep ps net).result = Except.ok p ∧
      (make_request st now ep ps net).networkCalled = false ∧
      (make_request st now ep ps net).state.cache = st.cache ∧
      (make_request st now ep ps net).state.limiter =
        (rateGate st.limiter now).1 := by
  simp [make_request, requestBody, hs, hc]

theorem C4_cache_hit_witness :
    (make_request c4state 0 ("ep") ("p") NetOutcome.transportErr).result =
        Except.ok (Payload.dict [("a", "b")]) ∧
      (make_request c4state 0 ("ep") ("p")
          NetOutcome.transportErr).networkCalled = false ∧
      (make_request c4state 0 ("ep") ("p")
          NetOutcome.transportErr).state.cache = c4state.cache ∧
      (make_request c4state 0 ("ep") ("p")
          NetOutcome.transportErr).state.limiter =
        (rateGate c4state.limiter 0).1 :=
  C4_cache_hit c4state 0 ("ep") ("p") NetOutcome.transportErr
    (Payload.dict [("a", "b")]) rfl (by decide)

/-- A sequence of _make_request calls executed one after the other by the
single-threaded event loop: each element carries the arrival instant, the
endpoint, the rendered params, and the network outcome of that call. -/
def runCalls : FetchState → List (Nat × String × String × NetOutcome) →
    List ReqOutcome
  | _, [] => []
  | st, (now, ep, ps, net) :: rest =>
    make_request st now ep ps net ::
      runCalls (make_request st now ep ps net).state rest

/-- Thirty-one fetch calls with pairwise distinct cache keys, arriving
one second apart starting at instant 0. -/
def c5calls : List (Nat × String × String × NetOutcome) :=
  (List.range 31).map fun i =>
    (i, String.mk (Nat.toDigits 10 i), "", NetOutcome.payload (Payload.dict []))

/-- C5 fails as stated: on a connector configured with the AEMET limit of
30 requests per minute, the fetcher performs 31 non-cached network calls
inside one rolling 60-second window, because the decorator is hard-coded
to one call per second and never consults the configured rate_limit. -/
theorem C5_cex :
    ((runCalls ⟨true, [], ⟨0, 0⟩⟩ c5calls).countP
        fun r => r.networkCalled && decide (r.time ≤ 60)) = 31 ∧
      aemet_rate_limit < 31 := by
  refine ⟨by decide, by decide⟩

theorem rateGate_run (r now : Nat) :
    rateGate ⟨r, 1⟩ now = (⟨max (r + 1) now, 1⟩, max (r + 1) now) := by
  unfold rateGate
  by_cases h : r + 1 ≤ now
  · rw [if_pos h, Nat.max_eq_right h]
  · rw [if_neg h, if_neg (by omega : ¬(1 : Nat) = 0),
      Nat.max_eq_left (by omega)]

/-- C5 amended: the gate enforces a fixed window of one call per second,
hard-coded and independent of the configured per-minute rate_limit; a
call arriving after the window elapsed is admitted at once, a call inside
an occupied window sleeps until the window resets and is then admitted.
Hence once the limiter has counted one call, consecutive request
completions are always at least one second apart. -/
theorem C5_one_per_second (calls : List (Nat × String × String × NetOutcome)) :
    ∀ (st : FetchState) (r : Nat), st.limiter = ⟨r, 1⟩ →
      List.Chain' (fun a b => a.time + 1 ≤ b.time) (runCalls st calls) := by
  induction calls with
  | nil => intro st r _; exact List.chain'_nil
  | cons c rest ih =>
    intro st r h
    obtain ⟨now, ep, ps, net⟩ := c
    rw [runCalls]
    have hl : (make_request st now ep ps net).state.limiter =
        ⟨max (r + 1) now, 1⟩ := by
      show (rateGate st.limiter now).1 = _
      rw [h, rateGate_run]
    rw [List.chain'_cons']
    constructor
    · intro b hb
      cases rest with
      | nil => simp [runCalls] at hb
      | cons c2 rest2 =>
        obtain ⟨n2, e2, p2, net2⟩ := c2
        rw [runCalls] at hb
        simp only [List.head?_cons, Option.mem_def, Option.some.injEq] at hb
        subst hb
        have h1 : (make_request st now ep ps net).time = max (r + 1) now := by
          show (rateGate st.limiter now).2 = _
          rw [h, rateGate_run]
        have h2 : (make_request (make_request st now ep ps net).state
            n2 e2 p2 net2).time = max (max (r + 1) now + 1) n2 := by
          show (rateGate (make_request st now ep ps net).state.limiter n2).2 = _
          rw [hl, rateGate_run]
        rw [h1, h2]
        exact Nat.le_max_left _ _
    · exact ih _ (max (r + 1) now) hl

theorem C5_one_per_second_witness :
    List.Chain' (fun a b => a.time + 1 ≤ b.time)
      (runCalls ⟨true, [], ⟨0, 1⟩⟩ c5calls) :=
  C5_one_per_second c5calls ⟨true, [], ⟨0, 1⟩⟩ 0 rfl

end ModelForge
